import Mathlib

/-!
Verification of the download-orchestration core of the music-downloader
repository: the fingerprint cache of `OptimizedDownloadService`, the
download `QueueManager`, the playback `MusicQueueManager`, and the retry
controller `execWithRetryFactory`.  Each definition is a shallow embedding
of the corresponding TypeScript function; external effects (uuid
generation, `Date.now()`, the filesystem, the spawned process outcome) are
passed in as explicit parameters.
-/

namespace MusicDownloader

/-! ## OptimizedDownloadService.generateId

`generateId` builds a key string from the job description and returns
`Buffer.from(key).toString('base64').slice(0, 16)`.  `base64Encode` is the
standard base64 encoding of a byte list; `strBytes` gives the UTF-8 bytes
of a string (for the ASCII inputs that occur here, the code point of each
character). -/

def base64Table : List Char :=
  "ABCDEFGHIJKLMNOPQRSTUVWXYZabcdefghijklmnopqrstuvwxyz0123456789+/".data

def b64Char (n : Nat) : Char := base64Table.getD n 'A'

def base64Encode : List Nat → List Char
  | [] => []
  | [b1] => [b64Char (b1 / 4), b64Char (b1 % 4 * 16), '=', '=']
  | [b1, b2] => [b64Char (b1 / 4), b64Char (b1 % 4 * 16 + b2 / 16), b64Char (b2 % 16 * 4), '=']
  | b1 :: b2 :: b3 :: rest =>
      b64Char (b1 / 4) :: b64Char (b1 % 4 * 16 + b2 / 16) ::
        b64Char (b2 % 16 * 4 + b3 / 64) :: b64Char (b3 % 64) :: base64Encode rest

def strBytes (s : String) : List Nat := s.data.map Char.toNat

/-- Model of `OptimizedDownloadService.generateId(url, format, quality,
audioFormat, audioQuality, videoQualityFormat)`.  For video, `videoQualityFormat || quality`
falls back to `quality` when `videoQualityFormat` is the empty string. -/
def generateId (url format quality audioFormat audioQuality videoQualityFormat : String) :
    String :=
  let key :=
    if format = "audio" then
      url ++ "-" ++ format ++ "-" ++ audioFormat ++ "-" ++ audioQuality
    else
      url ++ "-" ++ format ++ "-" ++ (if videoQualityFormat = "" then quality else videoQualityFormat)
  String.mk ((base64Encode (strBytes key)).take 16)

/-- C1: claimed, the cache fingerprint is injective on the practical input
space.  It is not: the base64 output is truncated to 16 characters, which
encode only the first 12 bytes of the key, and every `https://www.`-URL
agrees on those 12 bytes.  Two distinct YouTube video URLs with identical
audio settings receive the same cache token. -/
theorem generateId_collision :
    generateId "https://www.youtube.com/watch?v=dQw4w9WgXcQ" "audio" "high" "mp3" "320" "" =
        generateId "https://www.youtube.com/watch?v=9bZkp7q19f0" "audio" "high" "mp3" "320" "" ∧
      "https://www.youtube.com/watch?v=dQw4w9WgXcQ" ≠
        "https://www.youtube.com/watch?v=9bZkp7q19f0" := by
  refine ⟨by decide, by decide⟩

/-! ## QueueManager (download queue)

State of the `QueueManager` class: the job list and the `activeDownloads`
counter (a JS number, modelled as `Int` since the code can drive it below
zero).  `maxConcurrent` is the hard-coded instance field.  `uuidv4()` and
`new Date()` are external inputs and appear as explicit arguments of the
operations.  Event emission (`emit('progressUpdate', ...)`) is modelled by
returning the emitted payload alongside the new state. -/

inductive QStatus
  | pending
  | downloading
  | completed
  | failed
  | paused
deriving DecidableEq, Repr

structure QItem where
  id : String
  url : String
  format : String
  title : Option String
  status : QStatus
  progress : Option Int
  speed : Option String
  eta : Option String
  error : Option String
  createdAt : Int
  completedAt : Option Int
deriving DecidableEq, Repr

structure QMState where
  queue : List QItem
  activeDownloads : Int
deriving DecidableEq, Repr

def maxConcurrent : Int := 3

def qmInit : QMState := ⟨[], 0⟩

/-- The JS `this.queue.find(q => q.id === itemId)` (first match). -/
def findItem (queue : List QItem) (itemId : String) : Option QItem :=
  queue.find? (fun q => q.id == itemId)

/-- Mutation of the first list element satisfying `p`, as JS `find` followed
by in-place mutation of the found object. -/
def updateFirst (p : α → Bool) (f : α → α) : List α → List α
  | [] => []
  | x :: xs => if p x then f x :: xs else x :: updateFirst p f xs

/-- Model of `QueueManager.processQueue`: return unless `activeDownloads < maxConcurrent`;
find the first `pending` item; set it `downloading` and increment the counter. -/
def processQueue (s : QMState) : QMState :=
  if s.activeDownloads ≥ maxConcurrent then s
  else
    match s.queue.find? (fun it => it.status == .pending) with
    | none => s
    | some _ =>
        { queue := updateFirst (fun it => it.status == .pending)
            (fun it => { it with status := .downloading }) s.queue,
          activeDownloads := s.activeDownloads + 1 }

/-- Model of `QueueManager.addToQueue(url, format, title?)`; `id` is the fresh
`uuidv4()` and `now` the `new Date()` timestamp. -/
def addToQueue (s : QMState) (id url format : String) (title : Option String) (now : Int) :
    QMState :=
  processQueue
    { s with
      queue := s.queue ++ [⟨id, url, format, title, .pending, none, none, none, none, now, none⟩] }

/-- A `Partial<ProgressUpdate>` argument: absent fields are `none`. -/
structure ProgressPatch where
  progress : Option Int
  speed : Option String
  eta : Option String
  status : Option QStatus
deriving DecidableEq, Repr

/-- JS `Object.assign(item, update)`: present fields overwrite. -/
def assignPatch (it : QItem) (u : ProgressPatch) : QItem :=
  { it with
    progress := match u.progress with | some p => some p | none => it.progress
    speed := match u.speed with | some v => some v | none => it.speed
    eta := match u.eta with | some v => some v | none => it.eta
    status := match u.status with | some v => v | none => it.status }

/-- The `progressUpdate` event payload `{ itemId, ...update, status: item.status }`
(the status field is the item's post-assignment status). -/
structure ProgressEmission where
  itemId : String
  progress : Option Int
  speed : Option String
  eta : Option String
  status : QStatus
deriving DecidableEq, Repr

/-- Model of `QueueManager.updateProgress(itemId, update)`: when the item is found,
merge the update into it and emit the merged payload; otherwise no-op. -/
def updateProgressE (s : QMState) (itemId : String) (u : ProgressPatch) :
    QMState × Option ProgressEmission :=
  match findItem s.queue itemId with
  | none => (s, none)
  | some it =>
      ({ s with queue := updateFirst (fun q => q.id == itemId) (fun q => assignPatch q u) s.queue },
        some ⟨itemId, u.progress, u.speed, u.eta, (assignPatch it u).status⟩)

def updateProgress (s : QMState) (itemId : String) (u : ProgressPatch) : QMState :=
  (updateProgressE s itemId u).1

/-- Body of `QueueManager.completeItem` before its trailing `processQueue()`
call: if the item exists (its status is not checked), set the terminal
status and `completedAt`, record a truthy error string, and decrement
`activeDownloads`. -/
def completeTouch (success : Bool) (error : Option String) (now : Int) (q : QItem) : QItem :=
  { q with
    status := if success then .completed else .failed
    completedAt := some now
    error := match error with
      | some e => if e = "" then q.error else some e
      | none => q.error }

def completeItemCore (s : QMState) (itemId : String) (success : Bool) (error : Option String)
    (now : Int) : QMState :=
  match findItem s.queue itemId with
  | none => s
  | some _ =>
      { queue := updateFirst (fun q => q.id == itemId) (completeTouch success error now) s.queue,
        activeDownloads := s.activeDownloads - 1 }

/-- Model of `QueueManager.completeItem(itemId, success, error?)`. -/
def completeItem (s : QMState) (itemId : String) (success : Bool) (error : Option String)
    (now : Int) : QMState :=
  match findItem s.queue itemId with
  | none => s
  | some _ => processQueue (completeItemCore s itemId success error now)

def setStatusOf (itemId : String) (st : QStatus) (queue : List QItem) : List QItem :=
  updateFirst (fun q => q.id == itemId) (fun q => { q with status := st }) queue

/-- Model of `QueueManager.pauseItem`: `downloading → paused` only. -/
def pauseItem (s : QMState) (itemId : String) : QMState :=
  match findItem s.queue itemId with
  | some it =>
      if it.status == .downloading then
        { s with queue := setStatusOf itemId .paused s.queue }
      else s
  | none => s

/-- Model of `QueueManager.resumeItem`: `paused → pending`, then `processQueue()`. -/
def resumeItem (s : QMState) (itemId : String) : QMState :=
  match findItem s.queue itemId with
  | some it =>
      if it.status == .paused then
        processQueue { s with queue := setStatusOf itemId .pending s.queue }
      else s
  | none => s

/-- Model of `QueueManager.removeItem`: splice out the first item with this id. -/
def removeItem (s : QMState) (itemId : String) : QMState :=
  match s.queue.findIdx? (fun q => q.id == itemId) with
  | none => s
  | some i => { s with queue := s.queue.eraseIdx i }

/-- Model of `QueueManager.clearCompleted`. -/
def clearCompleted (s : QMState) : QMState :=
  { s with queue := s.queue.filter (fun it => it.status != .completed) }

/-- One externally triggerable `QueueManager` operation. -/
inductive QOp
  | add (id url format : String) (title : Option String) (now : Int)
  | update (itemId : String) (u : ProgressPatch)
  | complete (itemId : String) (success : Bool) (error : Option String) (now : Int)
  | pause (itemId : String)
  | resume (itemId : String)
  | remove (itemId : String)
  | clearDone

def qmStep (s : QMState) : QOp → QMState
  | .add id url format title now => addToQueue s id url format title now
  | .update itemId u => updateProgress s itemId u
  | .complete itemId success error now => completeItem s itemId success error now
  | .pause itemId => pauseItem s itemId
  | .resume itemId => resumeItem s itemId
  | .remove itemId => removeItem s itemId
  | .clearDone => clearCompleted s

def runQM (ops : List QOp) : QMState := ops.foldl qmStep qmInit

/-! ### C2: the concurrency bound -/

theorem processQueue_active_le (s : QMState) (h : s.activeDownloads ≤ maxConcurrent) :
    (processQueue s).activeDownloads ≤ maxConcurrent := by
  unfold processQueue
  split
  · exact h
  · rename_i hlt
    split
    · exact h
    · simp only
      omega

theorem qmStep_active_le (s : QMState) (op : QOp) (h : s.activeDownloads ≤ maxConcurrent) :
    (qmStep s op).activeDownloads ≤ maxConcurrent := by
  cases op with
  | add id url format title now =>
      exact processQueue_active_le _ h
  | update itemId u =>
      show (updateProgress s itemId u).activeDownloads ≤ maxConcurrent
      unfold updateProgress updateProgressE
      rcases hf : findItem s.queue itemId with _ | it <;> simpa [hf] using h
  | complete itemId success error now =>
      show (completeItem s itemId success error now).activeDownloads ≤ maxConcurrent
      unfold completeItem
      rcases hf : findItem s.queue itemId with _ | it
      · simpa [hf] using h
      · simp only [hf]
        refine processQueue_active_le _ ?_
        unfold completeItemCore
        simp only [hf]
        omega
  | pause itemId =>
      show (pauseItem s itemId).activeDownloads ≤ maxConcurrent
      unfold pauseItem
      rcases hf : findItem s.queue itemId with _ | it
      · simpa [hf] using h
      · simp only [hf]
        split <;> simpa using h
  | resume itemId =>
      show (resumeItem s itemId).activeDownloads ≤ maxConcurrent
      unfold resumeItem
      rcases hf : findItem s.queue itemId with _ | it
      · simpa [hf] using h
      · simp only [hf]
        split
        · exact processQueue_active_le _ (by simpa using h)
        · exact h
  | remove itemId =>
      show (removeItem s itemId).activeDownloads ≤ maxConcurrent
      unfold removeItem
      rcases hf : s.queue.findIdx? (fun q => q.id == itemId) with _ | i <;> simpa [hf] using h
  | clearDone =>
      simpa [qmStep, clearCompleted] using h

/-- C2: from the empty queue, no sequence of `QueueManager` operations drives
`activeDownloads` above `maxConcurrent`; `processQueue` leaves the state
untouched when the bound is reached, and a dispatch (promoting the first
pending job to `downloading`) increments the counter by exactly one, only
from below the bound. -/
theorem queueManager_concurrency_bound (ops : List QOp) :
    (runQM ops).activeDownloads ≤ maxConcurrent ∧
      (∀ s : QMState, maxConcurrent ≤ s.activeDownloads → processQueue s = s) ∧
      (∀ s : QMState, s.activeDownloads < maxConcurrent →
        (s.queue.find? (fun it => it.status == .pending)).isSome →
          (processQueue s).activeDownloads = s.activeDownloads + 1 ∧
            ∃ it, s.queue.find? (fun it => it.status == .pending) = some it ∧
              (processQueue s).queue =
                updateFirst (fun it => it.status == .pending)
                  (fun it => { it with status := QStatus.downloading }) s.queue) := by
  refine ⟨?_, ?_, ?_⟩
  · have : ∀ (ops : List QOp) (s : QMState), s.activeDownloads ≤ maxConcurrent →
        (ops.foldl qmStep s).activeDownloads ≤ maxConcurrent := by
      intro ops
      induction ops with
      | nil => intro s h; exact h
      | cons op rest ih => intro s h; exact ih _ (qmStep_active_le s op h)
    exact this ops qmInit (by norm_num [qmInit, maxConcurrent])
  · intro s h
    unfold processQueue
    rw [if_pos (by omega)]
  · intro s hlt hfind
    unfold processQueue
    rw [if_neg (by omega)]
    obtain ⟨it, hit⟩ := Option.isSome_iff_exists.mp hfind
    rw [hit]
    exact ⟨rfl, it, rfl, rfl⟩

/-- C2 witness: a concrete run (five jobs added, one completed) respects the
bound, a saturated state is left untouched by `processQueue`, and a dispatch
from below the bound increments the counter. -/
theorem queueManager_concurrency_bound_witness :
    (runQM [QOp.add "a" "u1" "mp3-320" none 0, QOp.add "b" "u2" "mp3-320" none 0,
        QOp.add "c" "u3" "mp3-320" none 0, QOp.add "d" "u4" "mp3-320" none 0,
        QOp.add "e" "u5" "mp3-320" none 0,
        QOp.complete "a" true none 9]).activeDownloads ≤ maxConcurrent ∧
      processQueue ⟨[], 3⟩ = ⟨[], 3⟩ ∧
      (processQueue ⟨[⟨"x", "u", "f", none, .pending, none, none, none, none, 0, none⟩], 0⟩).activeDownloads = 1 := by
  refine ⟨(queueManager_concurrency_bound _).1, ?_, ?_⟩
  · exact (queueManager_concurrency_bound []).2.1 ⟨[], 3⟩ (by decide)
  · simpa using ((queueManager_concurrency_bound []).2.2 _ (by decide)
      (by decide)).1

/-! ### C3: `completeItem` and non-`downloading` jobs -/

theorem find?_updateFirst (p : α → Bool) (f : α → α) (l : List α)
    (hp : ∀ x, p (f x) = p x) :
    (updateFirst p f l).find? p = (l.find? p).map f := by
  induction l with
  | nil => rfl
  | cons x xs ih =>
      by_cases hx : p x = true
      · simp [updateFirst, hx, List.find?_cons, hp]
      · simp [updateFirst, hx, List.find?_cons, ih]

/-- C3 counterexample: a job is promoted to `downloading` by `addToQueue`,
paused, and then completed.  Although its status is `paused` (not
`downloading`), `completeItem` sets the terminal status and `completedAt`
and decrements the active-slot count, contradicting the claim. -/
theorem completeItem_fires_from_paused :
    (findItem (pauseItem (addToQueue qmInit "a" "u" "mp3-320" none 0) "a").queue "a").map
        QItem.status = some .paused ∧
      (pauseItem (addToQueue qmInit "a" "u" "mp3-320" none 0) "a").activeDownloads = 1 ∧
      (findItem (completeItem (pauseItem (addToQueue qmInit "a" "u" "mp3-320" none 0) "a")
          "a" true none 7).queue "a").map QItem.status = some .completed ∧
      (findItem (completeItem (pauseItem (addToQueue qmInit "a" "u" "mp3-320" none 0) "a")
          "a" true none 7).queue "a").map QItem.completedAt = some (some 7) ∧
      (completeItem (pauseItem (addToQueue qmInit "a" "u" "mp3-320" none 0) "a")
          "a" true none 7).activeDownloads = 0 := by
  decide

/-- C3 amended: `completeItem(jobId, success, error?)` is a no-op only when
the id is unknown; whenever the job exists — whatever its status, including
`pending` and `paused` — it sets the terminal status and `completedAt`,
decrements the active-slot count, and then runs `processQueue`. -/
theorem completeItem_any_status (s : QMState) (itemId : String) (success : Bool)
    (error : Option String) (now : Int) :
    (findItem s.queue itemId = none → completeItem s itemId success error now = s) ∧
      (∀ it, findItem s.queue itemId = some it →
        completeItem s itemId success error now =
            processQueue (completeItemCore s itemId success error now) ∧
          (completeItemCore s itemId success error now).activeDownloads =
            s.activeDownloads - 1 ∧
          findItem (completeItemCore s itemId success error now).queue itemId =
            some (completeTouch success error now it) ∧
          (completeTouch success error now it).status =
            (if success then QStatus.completed else QStatus.failed) ∧
          (completeTouch success error now it).completedAt = some now) := by
  constructor
  · intro hnone
    unfold completeItem
    simp [hnone]
  · intro it hit
    refine ⟨?_, ?_, ?_, rfl, rfl⟩
    · unfold completeItem
      simp [hit]
    · unfold completeItemCore
      simp [hit]
    · unfold completeItemCore
      simp only [hit]
      unfold findItem at hit ⊢
      rw [find?_updateFirst (fun q => q.id == itemId) (completeTouch success error now) s.queue
        (fun x => rfl), hit]
      rfl

/-- C3 amended witness: instantiated at a one-element queue holding a
`paused` job. -/
theorem completeItem_any_status_witness :
    findItem (⟨[⟨"a", "u", "f", none, .paused, none, none, none, none, 0, none⟩], 1⟩ : QMState).queue
        "a" = some ⟨"a", "u", "f", none, .paused, none, none, none, none, 0, none⟩ ∧
      (completeItemCore ⟨[⟨"a", "u", "f", none, .paused, none, none, none, none, 0, none⟩], 1⟩
          "a" true none 7).activeDownloads = 1 - 1 := by
  refine ⟨by decide, ?_⟩
  exact ((completeItem_any_status ⟨[⟨"a", "u", "f", none, .paused, none, none, none, none, 0, none⟩], 1⟩
      "a" true none 7).2 ⟨"a", "u", "f", none, .paused, none, none, none, none, 0, none⟩
      (by decide)).2.1

/-! ### C4: progress monotonicity

The stderr handler of `OptimizedDownloadService.executeOptimizedDownload`
keeps a `lastPercent` accumulator; `parsed` is the percent captured by
`progressRegex` from a stderr chunk (`none` when the regex does not match).
The handler caps the value at 95 and forwards it only when it exceeds
`lastPercent`. -/

def progressHandlerStep (lastPercent : ℚ) (parsed : Option ℚ) : ℚ × Option ℚ :=
  match parsed with
  | none => (lastPercent, none)
  | some raw =>
      let percent := min 95 raw
      if lastPercent < percent then (percent, some percent) else (lastPercent, none)

/-- C4 counterexample: `QueueManager.updateProgress` does not clamp.  After a
published percent of 50, a reported percent of 30 is both applied to the job
(stored progress becomes 30) and republished to observers, while the job is
in its `downloading` phase — the published sequence 50, 30 decreases. -/
theorem updateProgress_republishes_drop :
    ((updateProgressE (addToQueue qmInit "a" "u" "mp3-320" none 0) "a"
        ⟨some 50, none, none, some .downloading⟩).2.map ProgressEmission.progress) =
          some (some 50) ∧
      ((updateProgressE (updateProgressE (addToQueue qmInit "a" "u" "mp3-320" none 0) "a"
          ⟨some 50, none, none, some .downloading⟩).1 "a"
          ⟨some 30, none, none, some .downloading⟩).2.map ProgressEmission.progress) =
            some (some 30) ∧
      ((findItem (updateProgressE (updateProgressE (addToQueue qmInit "a" "u" "mp3-320" none 0)
          "a" ⟨some 50, none, none, some .downloading⟩).1 "a"
          ⟨some 30, none, none, some .downloading⟩).1.queue "a").map QItem.progress) =
            some (some 30) ∧
      ((findItem (updateProgressE (updateProgressE (addToQueue qmInit "a" "u" "mp3-320" none 0)
          "a" ⟨some 50, none, none, some .downloading⟩).1 "a"
          ⟨some 30, none, none, some .downloading⟩).1.queue "a").map QItem.status) =
            some .downloading := by
  decide

/-- C4 amended: the stderr handler of `executeOptimizedDownload` is a
monotonic filter — it forwards a percent only when it strictly exceeds the
last forwarded value (capped at 95), updating the accumulator to the emitted
value — but `QueueManager.updateProgress` republishes any reported percent
verbatim, so on paths that feed it unfiltered (e.g. the playlist download),
a drop is applied and republished. -/
theorem progress_monotonic_amended :
    (∀ (last : ℚ) (parsed : Option ℚ) (q : ℚ),
        (progressHandlerStep last parsed).2 = some q →
          last < q ∧ q ≤ 95 ∧ (progressHandlerStep last parsed).1 = q) ∧
      (∀ (s : QMState) (itemId : String) (u : ProgressPatch) (e : ProgressEmission),
        (updateProgressE s itemId u).2 = some e → e.progress = u.progress) := by
  constructor
  · intro last parsed q hem
    match parsed with
    | none => simp [progressHandlerStep] at hem
    | some raw =>
        simp only [progressHandlerStep] at hem ⊢
        split at hem
        · rename_i hlt
          obtain rfl : min 95 raw = q := by simpa using hem
          exact ⟨hlt, min_le_left _ _, by simp [hlt]⟩
        · simp at hem
  · intro s itemId u e hem
    unfold updateProgressE at hem
    rcases hf : findItem s.queue itemId with _ | it <;> rw [hf] at hem
    · simp at hem
    · obtain rfl : (⟨itemId, u.progress, u.speed, u.eta, (assignPatch it u).status⟩ :
          ProgressEmission) = e := by simpa using hem
      rfl

/-- C4 amended witness: the handler forwards 50 over 0 (and caps at 95), and
`updateProgressE` emits the incoming 30 verbatim. -/
theorem progress_monotonic_amended_witness :
    ((0 : ℚ) < 50 ∧ (50 : ℚ) ≤ 95 ∧ (progressHandlerStep 0 (some 50)).1 = 50) ∧
      (⟨"a", some 30, none, none, .downloading⟩ : ProgressEmission).progress = some 30 := by
  constructor
  · exact progress_monotonic_amended.1 0 (some 50) 50 (by norm_num [progressHandlerStep])
  · exact progress_monotonic_amended.2
      ⟨[⟨"a", "u", "f", none, .downloading, none, none, none, none, 0, none⟩], 1⟩ "a"
      ⟨some 30, none, none, some .downloading⟩ _ (by decide)

/-! ## OptimizedDownloadService state: cache and in-flight set

`cache` is the `Map<string, { path, timestamp }>`, `active` the
`activeDownloads : Set<string>`.  `Date.now()`, `fs` existence checks and
the outcome of the spawned `yt-dlp` process are explicit parameters.  The
`fileName`/`size` fields of the returned record are filesystem metadata of
the artifact and are not modelled; a run result carries the file path. -/

structure CacheEntry where
  path : String
  timestamp : Int
deriving DecidableEq, Repr

def CACHE_TTL : Int := 24 * 60 * 60 * 1000

structure ServiceState where
  cache : String → Option CacheEntry
  active : List String

def cachePut (c : String → Option CacheEntry) (f path : String) (now : Int) :
    String → Option CacheEntry :=
  fun k => if k = f then some ⟨path, now⟩ else c k

def cacheDelete (c : String → Option CacheEntry) (f : String) : String → Option CacheEntry :=
  fun k => if k = f then none else c k

/-- The cache-check block at the top of `optimizedDownload` (guarded there by
the `cache` option): a fresh entry whose artifact still exists is served;
otherwise a present entry is deleted and the lookup misses. -/
def cacheCheck (c : String → Option CacheEntry) (f : String) (fsExists : String → Bool)
    (now : Int) : Option String × (String → Option CacheEntry) :=
  match c f with
  | none => (none, c)
  | some cached =>
      if decide (now - cached.timestamp < CACHE_TTL) && fsExists cached.path then
        (some cached.path, c)
      else (none, cacheDelete c f)

/-- Options record of `optimizedDownload` after destructuring defaults. -/
structure DlOptions where
  url : String
  format : String
  quality : String
  audioFormat : String
  audioQuality : String
  videoQualityFormat : String
  concurrent : Bool
  cache : Bool

def DlOptions.fingerprint (o : DlOptions) : String :=
  generateId o.url o.format o.quality o.audioFormat o.audioQuality o.videoQualityFormat

structure OptRun where
  result : Except String String
  state : ServiceState
  spawned : Bool

def dupMessage : String := "Download already in progress for this item"

/-- Model of `OptimizedDownloadService.optimizedDownload`.  `execResult` is the
outcome of `executeOptimizedDownload` (`.ok filePath` on success, `.error`
when it rejects); `spawned` records whether that external execution was
started. -/
def optimizedDownload (s : ServiceState) (opts : DlOptions) (fsExists : String → Bool)
    (now : Int) (execResult : Except String String) : OptRun :=
  let downloadId := opts.fingerprint
  let checked :=
    if opts.cache then cacheCheck s.cache downloadId fsExists now
    else (none, s.cache)
  match checked.1 with
  | some p => ⟨.ok p, ⟨checked.2, s.active⟩, false⟩
  | none =>
      if s.active.contains downloadId then
        ⟨.error dupMessage, ⟨checked.2, s.active⟩, false⟩
      else
        let active2 := downloadId :: s.active
        match execResult with
        | .ok filePath =>
            let cache3 :=
              if opts.cache then cachePut checked.2 downloadId filePath now else checked.2
            ⟨.ok filePath, ⟨cache3, active2.filter (fun x => x != downloadId)⟩, true⟩
        | .error msg =>
            ⟨.error msg, ⟨checked.2, active2.filter (fun x => x != downloadId)⟩, true⟩

/-- Model of `OptimizedDownloadService.cleanupCache`, restricted to the cache map:
every entry strictly older than the TTL is removed. -/
def cleanupCache (c : String → Option CacheEntry) (now : Int) : String → Option CacheEntry :=
  fun k => match c k with
    | none => none
    | some e => if now - e.timestamp > CACHE_TTL then none else some e

/-! ### C6: cache round-trip -/

/-- C6: after `put(f, p)` at time `t`, a lookup before the TTL expires and
while the artifact exists returns `p` and keeps the entry; once more than
the 24-hour TTL has elapsed, or the artifact no longer exists, the lookup
misses and deletes the entry from the cache. -/
theorem cache_roundtrip (c : String → Option CacheEntry) (f p : String)
    (fsExists : String → Bool) (t now : Int) :
    (fsExists p = true → now - t < CACHE_TTL →
        (cacheCheck (cachePut c f p t) f fsExists now).1 = some p ∧
          (cacheCheck (cachePut c f p t) f fsExists now).2 f = some ⟨p, t⟩) ∧
      (CACHE_TTL < now - t →
        (cacheCheck (cachePut c f p t) f fsExists now).1 = none ∧
          (cacheCheck (cachePut c f p t) f fsExists now).2 f = none) ∧
      (fsExists p = false →
        (cacheCheck (cachePut c f p t) f fsExists now).1 = none ∧
          (cacheCheck (cachePut c f p t) f fsExists now).2 f = none) := by
  have hput : cachePut c f p t f = some ⟨p, t⟩ := by simp [cachePut]
  refine ⟨?_, ?_, ?_⟩
  · intro hfs hfresh
    unfold cacheCheck
    rw [hput]
    simp [hfresh, hfs, hput]
  · intro hstale
    unfold cacheCheck
    rw [hput]
    have : ¬(now - t < CACHE_TTL) := by omega
    simp [this, cacheDelete]
  · intro hfs
    unfold cacheCheck
    rw [hput]
    simp [hfs, cacheDelete]

/-- C6 witness: a concrete put/lookup at `t = 0`, checked fresh at
`now = 1000`, expired at `now = CACHE_TTL + 1`, and with a missing artifact. -/
theorem cache_roundtrip_witness :
    ((cacheCheck (cachePut (fun _ => none) "fp" "/tmp/a.mp3" 0) "fp" (fun _ => true) 1000).1 =
        some "/tmp/a.mp3" ∧
      (cacheCheck (cachePut (fun _ => none) "fp" "/tmp/a.mp3" 0) "fp" (fun _ => true) 1000).2 "fp" =
        some ⟨"/tmp/a.mp3", 0⟩) ∧
      ((cacheCheck (cachePut (fun _ => none) "fp" "/tmp/a.mp3" 0) "fp" (fun _ => true)
          (CACHE_TTL + 1)).1 = none ∧
        (cacheCheck (cachePut (fun _ => none) "fp" "/tmp/a.mp3" 0) "fp" (fun _ => true)
          (CACHE_TTL + 1)).2 "fp" = none) ∧
      ((cacheCheck (cachePut (fun _ => none) "fp" "/tmp/a.mp3" 0) "fp" (fun _ => false) 1000).1 =
          none ∧
        (cacheCheck (cachePut (fun _ => none) "fp" "/tmp/a.mp3" 0) "fp" (fun _ => false) 1000).2
          "fp" = none) := by
  refine ⟨?_, ?_, ?_⟩
  · exact (cache_roundtrip (fun _ => none) "fp" "/tmp/a.mp3" (fun _ => true) 0 1000).1 rfl
      (by decide)
  · exact (cache_roundtrip (fun _ => none) "fp" "/tmp/a.mp3" (fun _ => true) 0 (CACHE_TTL + 1)).2.1
      (by decide)
  · exact (cache_roundtrip (fun _ => none) "fp" "/tmp/a.mp3" (fun _ => false) 0 1000).2.2 rfl

/-! ### C5 and C10: in-flight dedup and its release -/

/-- C5: while a fingerprint is in the in-flight set, a second
`optimizedDownload` call for it never starts the external process, and
unless the call is served from a valid cache entry it fails fast with the
duplicate-in-progress error, leaving the in-flight set unchanged. -/
theorem duplicate_in_flight_fails_fast (s : ServiceState) (opts : DlOptions)
    (fsExists : String → Bool) (now : Int) (execResult : Except String String)
    (h : s.active.contains opts.fingerprint = true) :
    (optimizedDownload s opts fsExists now execResult).spawned = false ∧
      (optimizedDownload s opts fsExists now execResult).state.active = s.active ∧
      ((if opts.cache then cacheCheck s.cache opts.fingerprint fsExists now
          else (none, s.cache)).1 = none →
        (optimizedDownload s opts fsExists now execResult).result = .error dupMessage) := by
  unfold optimizedDownload
  rcases hc : (if opts.cache then cacheCheck s.cache opts.fingerprint fsExists now
      else (none, s.cache)).1 with _ | p
  · have hmem : opts.fingerprint ∈ s.active := by simpa using h
    simp [hc, hmem]
  · simp [hc]

/-- C5 witness: a service whose in-flight set holds the fingerprint of an
audio job, an empty cache, and a successful external outcome. -/
theorem duplicate_in_flight_fails_fast_witness :
    (optimizedDownload ⟨fun _ => none, [DlOptions.fingerprint
          ⟨"https://www.youtube.com/watch?v=dQw4w9WgXcQ", "audio", "high", "mp3", "320", "", true, true⟩]⟩
        ⟨"https://www.youtube.com/watch?v=dQw4w9WgXcQ", "audio", "high", "mp3", "320", "", true, true⟩
        (fun _ => true) 0 (.ok "/tmp/out.mp3")).spawned = false ∧
      (optimizedDownload ⟨fun _ => none, [DlOptions.fingerprint
          ⟨"https://www.youtube.com/watch?v=dQw4w9WgXcQ", "audio", "high", "mp3", "320", "", true, true⟩]⟩
        ⟨"https://www.youtube.com/watch?v=dQw4w9WgXcQ", "audio", "high", "mp3", "320", "", true, true⟩
        (fun _ => true) 0 (.ok "/tmp/out.mp3")).result = .error dupMessage := by
  have h := duplicate_in_flight_fails_fast
    ⟨fun _ => none, [DlOptions.fingerprint
        ⟨"https://www.youtube.com/watch?v=dQw4w9WgXcQ", "audio", "high", "mp3", "320", "", true, true⟩]⟩
    ⟨"https://www.youtube.com/watch?v=dQw4w9WgXcQ", "audio", "high", "mp3", "320", "", true, true⟩
    (fun _ => true) 0 (.ok "/tmp/out.mp3") (by simp [List.contains])
  exact ⟨h.1, h.2.2 rfl⟩

theorem contains_filter_ne (l : List String) (a : String) :
    (l.filter (fun x => x != a)).contains a = false := by
  have hnm : a ∉ l.filter (fun x => x != a) := by
    intro hmem
    rcases List.mem_filter.mp hmem with ⟨-, hne⟩
    simp at hne
  simpa using hnm

/-- C10: a call that is not rejected as a duplicate always leaves the
in-flight set without its fingerprint, whether the external execution
resolves or rejects — the `finally` clause releases the slot, so a failed
attempt never blocks a later request for the same fingerprint. -/
theorem inflight_released_after_attempt (s : ServiceState) (opts : DlOptions)
    (fsExists : String → Bool) (now : Int) (execResult : Except String String)
    (h : s.active.contains opts.fingerprint = false) :
    (optimizedDownload s opts fsExists now execResult).state.active.contains
      opts.fingerprint = false := by
  unfold optimizedDownload
  rcases hc : (if opts.cache then cacheCheck s.cache opts.fingerprint fsExists now
      else (none, s.cache)).1 with _ | p
  · simp only [hc, h]
    rw [if_neg (by simp [h])]
    rcases execResult with msg | filePath <;>
      simpa using contains_filter_ne (opts.fingerprint :: s.active) opts.fingerprint
  · simp only [hc]
    exact h

/-- C10 witness: a failed external execution for a fresh fingerprint leaves
the in-flight set clear of it. -/
theorem inflight_released_after_attempt_witness :
    (optimizedDownload ⟨fun _ => none, []⟩
        ⟨"https://www.youtube.com/watch?v=dQw4w9WgXcQ", "audio", "high", "mp3", "320", "", true, true⟩
        (fun _ => true) 0 (.error "Download failed with exit code 1")).state.active.contains
      (DlOptions.fingerprint
        ⟨"https://www.youtube.com/watch?v=dQw4w9WgXcQ", "audio", "high", "mp3", "320", "", true, true⟩) =
      false := by
  exact inflight_released_after_attempt ⟨fun _ => none, []⟩
    ⟨"https://www.youtube.com/watch?v=dQw4w9WgXcQ", "audio", "high", "mp3", "320", "", true, true⟩
    (fun _ => true) 0 (.error "Download failed with exit code 1") rfl

/-! ## Retry controller: `execWithRetryFactory`

The TS function repeatedly awaits `run()`; here `run j` is the outcome of
the j-th invocation of that thunk (j starting at 1).  A trace records the
final outcome, how many times the thunk was invoked, and the backoff delays
(`Math.pow(2, attempt) * 1000` milliseconds, i.e. `2^attempt` seconds)
awaited between attempts.  The classification of the final failure message
follows the `error.message.includes(...)` chain of the source. -/

inductive RetryError
  | timeout (msg : String)
  | unavailable (msg : String)
  | network (msg : String)
  | generic (msg : String)
deriving DecidableEq, Repr

/-- The JS `haystack.includes(needle)`. -/
def subMatch (needle : List Char) : List Char → Bool
  | [] => needle.isEmpty
  | c :: rest => needle.isPrefixOf (c :: rest) || subMatch needle rest

def strIncludes (haystack needle : String) : Bool := subMatch needle.data haystack.data

/-- The JS `s.toLowerCase()` (character-wise, which is all the code relies on). -/
def strToLower (s : String) : String := String.mk (s.data.map Char.toLower)

def classifyError (msg : String) : RetryError :=
  if strIncludes msg "timed out" then
    .timeout "Download timed out. The video might be too long or network is slow."
  else if strIncludes msg "unavailable" then
    .unavailable "Video is unavailable. It might be private, deleted, or geo-blocked."
  else if strIncludes (strToLower msg) "http" then
    .network ("Network error: " ++ msg)
  else .generic ("Download failed: " ++ msg)

structure RetryTrace where
  result : Except RetryError String
  attemptsMade : Nat
  delays : List Nat
deriving Repr

/-- The `for (attempt = ...; attempt <= maxRetries; ...)` loop body, with
`fuel` the number of remaining loop iterations; the `fuel = 0` case is the
unreachable `throw new Error('Unexpected retry loop exit')` after the loop. -/
def execWithRetryAux (run : Nat → Except String String) (maxRetries : Nat) :
    Nat → Nat → RetryTrace
  | _, 0 => ⟨.error (.generic "Unexpected retry loop exit"), 0, []⟩
  | attempt, fuel + 1 =>
      match run attempt with
      | .ok r => ⟨.ok r, 1, []⟩
      | .error msg =>
          if attempt = maxRetries then ⟨.error (classifyError msg), 1, []⟩
          else
            let rest := execWithRetryAux run maxRetries (attempt + 1) fuel
            ⟨rest.result, rest.attemptsMade + 1, 2 ^ attempt * 1000 :: rest.delays⟩

def execWithRetryFactory (run : Nat → Except String String) (maxRetries : Nat) : RetryTrace :=
  execWithRetryAux run maxRetries 1 maxRetries

theorem execWithRetryAux_success (run : Nat → Except String String) (maxRetries : Nat) :
    ∀ (fuel attempt k : Nat) (r : String),
      attempt + fuel = maxRetries + 1 → attempt ≤ k → k ≤ maxRetries →
      (∀ j, attempt ≤ j → j < k → ∃ m, run j = .error m) → run k = .ok r →
      (execWithRetryAux run maxRetries attempt fuel).result = .ok r ∧
        (execWithRetryAux run maxRetries attempt fuel).attemptsMade = k + 1 - attempt ∧
        (execWithRetryAux run maxRetries attempt fuel).delays =
          (List.range' attempt (k - attempt)).map (fun j => 2 ^ j * 1000) := by
  intro fuel
  induction fuel with
  | zero =>
      intro attempt k r hsum hak hkm hfail hok
      exact absurd hkm (by omega)
  | succ fuel ih =>
      intro attempt k r hsum hak hkm hfail hok
      by_cases hk : attempt = k
      · rw [hk]
        refine ⟨?_, ?_, ?_⟩ <;> simp [execWithRetryAux, hok]
      · have hlt : attempt < k := lt_of_le_of_ne hak hk
        obtain ⟨m, hm⟩ := hfail attempt le_rfl hlt
        have hne : attempt ≠ maxRetries := by omega
        obtain ⟨ih1, ih2, ih3⟩ := ih (attempt + 1) k r (by omega) (by omega) hkm
          (fun j hj1 hj2 => hfail j (by omega) hj2) hok
        simp only [execWithRetryAux, hm, if_neg hne]
        refine ⟨ih1, by rw [ih2]; omega, ?_⟩
        have hn : k - attempt = (k - (attempt + 1)) + 1 := by omega
        rw [ih3, hn, List.range'_succ, List.map_cons]

theorem execWithRetryAux_exhaust (run : Nat → Except String String) (maxRetries : Nat)
    (msgs : Nat → String) :
    ∀ (fuel attempt : Nat),
      attempt + fuel = maxRetries + 1 → attempt ≤ maxRetries →
      (∀ j, attempt ≤ j → j ≤ maxRetries → run j = .error (msgs j)) →
      (execWithRetryAux run maxRetries attempt fuel).result =
          .error (classifyError (msgs maxRetries)) ∧
        (execWithRetryAux run maxRetries attempt fuel).attemptsMade =
          maxRetries + 1 - attempt ∧
        (execWithRetryAux run maxRetries attempt fuel).delays =
          (List.range' attempt (maxRetries - attempt)).map (fun j => 2 ^ j * 1000) := by
  intro fuel
  induction fuel with
  | zero =>
      intro attempt hsum ham hfail
      exact absurd ham (by omega)
  | succ fuel ih =>
      intro attempt hsum ham hfail
      have hm := hfail attempt le_rfl ham
      by_cases hk : attempt = maxRetries
      · rw [hk] at hm ⊢
        refine ⟨?_, ?_, ?_⟩ <;> simp [execWithRetryAux, hm]
      · obtain ⟨ih1, ih2, ih3⟩ := ih (attempt + 1) (by omega) (by omega)
          (fun j hj1 hj2 => hfail j (by omega) hj2)
        simp only [execWithRetryAux, hm, if_neg hk]
        refine ⟨ih1, by rw [ih2]; omega, ?_⟩
        have hn : maxRetries - attempt = (maxRetries - (attempt + 1)) + 1 := by omega
        rw [ih3, hn, List.range'_succ, List.map_cons]

/-- C8: the retry controller invokes the attempt thunk sequentially.  If the
first `k - 1` invocations fail and the k-th (k ≤ maxRetries) succeeds, the
caller observes exactly that success after `k` invocations, having awaited
the backoff delays `2^1, …, 2^(k-1)` seconds (stored in milliseconds); if all
`maxRetries` invocations fail, it observes the single classified error
obtained from the final failure's message by `classifyError` (one of
Timeout, Unavailable, Network, Generic, each carrying a human-readable
cause). -/
theorem execWithRetry_spec (run : Nat → Except String String) (maxRetries k : Nat)
    (msgs : Nat → String) (r : String) :
    (1 ≤ k → k ≤ maxRetries → (∀ j, 1 ≤ j → j < k → ∃ m, run j = .error m) →
        run k = .ok r →
        (execWithRetryFactory run maxRetries).result = .ok r ∧
          (execWithRetryFactory run maxRetries).attemptsMade = k ∧
          (execWithRetryFactory run maxRetries).delays =
            (List.range' 1 (k - 1)).map (fun j => 2 ^ j * 1000)) ∧
      (1 ≤ maxRetries → (∀ j, 1 ≤ j → j ≤ maxRetries → run j = .error (msgs j)) →
        (execWithRetryFactory run maxRetries).result =
            .error (classifyError (msgs maxRetries)) ∧
          (execWithRetryFactory run maxRetries).attemptsMade = maxRetries ∧
          (execWithRetryFactory run maxRetries).delays =
            (List.range' 1 (maxRetries - 1)).map (fun j => 2 ^ j * 1000)) := by
  constructor
  · intro h1 hkm hfail hok
    obtain ⟨e1, e2, e3⟩ :=
      execWithRetryAux_success run maxRetries maxRetries 1 k r (by omega) h1 hkm hfail hok
    exact ⟨e1, by rw [execWithRetryFactory, e2]; omega, by rw [execWithRetryFactory, e3]⟩
  · intro h1 hfail
    obtain ⟨e1, e2, e3⟩ :=
      execWithRetryAux_exhaust run maxRetries msgs maxRetries 1 (by omega) h1 hfail
    exact ⟨e1, by rw [execWithRetryFactory, e2]; omega, by rw [execWithRetryFactory, e3]⟩

/-- C8 witness: with three allowed attempts, two injected failures then a
success yield the success after 3 invocations with delays 2s and 4s; three
failures whose final message contains "unavailable" yield the single
classified Unavailable error. -/
theorem execWithRetry_spec_witness :
    ((execWithRetryFactory (fun j => if j = 3 then .ok "done" else .error "boom") 3).result =
          .ok "done" ∧
        (execWithRetryFactory (fun j => if j = 3 then .ok "done" else .error "boom") 3).attemptsMade =
          3 ∧
        (execWithRetryFactory (fun j => if j = 3 then .ok "done" else .error "boom") 3).delays =
          [2000, 4000]) ∧
      (execWithRetryFactory (fun _ => .error "Video unavailable") 3).result =
        .error (.unavailable
          "Video is unavailable. It might be private, deleted, or geo-blocked.") := by
  constructor
  · obtain ⟨e1, e2, e3⟩ := (execWithRetry_spec (fun j => if j = 3 then .ok "done" else .error "boom")
      3 3 (fun _ => "") "done").1 (by decide) (by decide)
      (fun j hj1 hj2 => ⟨"boom", by rw [if_neg (by omega)]⟩) (by rfl)
    exact ⟨e1, e2, e3.trans (by decide)⟩
  · have h := (execWithRetry_spec (fun _ => .error "Video unavailable") 3 3
      (fun _ => "Video unavailable") "").2 (by decide) (fun j hj1 hj2 => rfl)
    have hc : classifyError "Video unavailable" =
        RetryError.unavailable
          "Video is unavailable. It might be private, deleted, or geo-blocked." := by decide
    exact h.1.trans (congrArg Except.error hc)

/-! ## List helpers for the playback queue

`eraseAt l i` is `l.splice(i, 1)`, `insertAt i a l` is `l.splice(i, 0, a)`
(on an index within bounds), `setAt l i a` overwrites position `i`.  Their
`get?` characterizations drive the cursor-invariant proofs. -/

def eraseAt : List α → Nat → List α
  | [], _ => []
  | _ :: xs, 0 => xs
  | x :: xs, n + 1 => x :: eraseAt xs n

def insertAt : Nat → α → List α → List α
  | 0, a, l => a :: l
  | _ + 1, a, [] => [a]
  | n + 1, a, x :: xs => x :: insertAt n a xs

def setAt : List α → Nat → α → List α
  | [], _, _ => []
  | _ :: xs, 0, a => a :: xs
  | x :: xs, n + 1, a => x :: setAt xs n a

theorem getElem?_eraseAt (l : List α) (i j : Nat) :
    (eraseAt l i)[j]? = if j < i then l[j]? else l[j + 1]? := by
  induction l generalizing i j with
  | nil => simp [eraseAt]
  | cons x xs ih =>
      match i, j with
      | 0, j => simp [eraseAt]
      | i + 1, 0 => simp [eraseAt]
      | i + 1, j + 1 =>
          simp only [eraseAt, List.getElem?_cons_succ, ih]
          by_cases h : j < i <;> simp [h, Nat.succ_lt_succ_iff]

theorem length_eraseAt (l : List α) (i : Nat) (h : i < l.length) :
    (eraseAt l i).length = l.length - 1 := by
  induction l generalizing i with
  | nil => simp at h
  | cons x xs ih =>
      match i with
      | 0 => simp [eraseAt]
      | i + 1 =>
          have hx : i < xs.length := by simpa using h
          have hpos : 1 ≤ xs.length := by omega
          simp [eraseAt, ih i hx]
          omega

theorem length_insertAt (n : Nat) (a : α) (l : List α) :
    (insertAt n a l).length = l.length + 1 := by
  induction l generalizing n with
  | nil => cases n <;> simp [insertAt]
  | cons x xs ih =>
      cases n with
      | zero => simp [insertAt]
      | succ n => simp [insertAt, ih]

theorem getElem?_insertAt (n : Nat) (a : α) (l : List α) (h : n ≤ l.length) (j : Nat) :
    (insertAt n a l)[j]? =
      if j < n then l[j]? else if j = n then some a else l[j - 1]? := by
  induction l generalizing n j with
  | nil =>
      have hn : n = 0 := by simpa using h
      subst hn
      match j with
      | 0 => simp [insertAt]
      | j + 1 => simp [insertAt]
  | cons x xs ih =>
      match n, j with
      | 0, 0 => simp [insertAt]
      | 0, j + 1 => simp [insertAt]
      | n + 1, 0 => simp [insertAt]
      | n + 1, j + 1 =>
          have hx : n ≤ xs.length := by simpa using h
          simp only [insertAt, List.getElem?_cons_succ, ih n hx j]
          by_cases h1 : j < n
          · simp [h1, Nat.succ_lt_succ_iff]
          · by_cases h2 : j = n
            · simp [h1, h2]
            · have h3 : ¬(j + 1 < n + 1) := by omega
              have hne : ¬(j + 1 = n + 1) := by omega
              have hj1 : 1 ≤ j := by omega
              simp only [h1, h2, if_false, h3, hne]
              have h4 : j + 1 - 1 = (j - 1) + 1 := by omega
              rw [h4, List.getElem?_cons_succ]

theorem getElem?_setAt_self (l : List α) (i : Nat) (a : α) (h : i < l.length) :
    (setAt l i a)[i]? = some a := by
  induction l generalizing i with
  | nil => simp at h
  | cons x xs ih =>
      match i with
      | 0 => simp [setAt]
      | i + 1 => simpa [setAt] using ih i (by simpa using h)

theorem getElem?_setAt_ne (l : List α) (i : Nat) (a : α) (j : Nat) (h : j ≠ i) :
    (setAt l i a)[j]? = l[j]? := by
  induction l generalizing i j with
  | nil => simp [setAt]
  | cons x xs ih =>
      match i, j with
      | 0, 0 => omega
      | 0, j + 1 => simp [setAt]
      | i + 1, 0 => simp [setAt]
      | i + 1, j + 1 => simpa [setAt] using ih i (j := j) (by omega)

theorem length_setAt (l : List α) (i : Nat) (a : α) : (setAt l i a).length = l.length := by
  induction l generalizing i with
  | nil => rfl
  | cons x xs ih =>
      match i with
      | 0 => simp [setAt]
      | i + 1 => simp [setAt, ih]

theorem getElem?_append_lt (l1 l2 : List α) (i : Nat) (h : i < l1.length) :
    (l1 ++ l2)[i]? = l1[i]? := by
  induction l1 generalizing i with
  | nil => simp at h
  | cons x xs ih =>
      match i with
      | 0 => simp
      | i + 1 => simpa using ih i (by simpa using h)

theorem getElem?_append_ge (l1 l2 : List α) (i : Nat) (h : l1.length ≤ i) :
    (l1 ++ l2)[i]? = l2[i - l1.length]? := by
  induction l1 generalizing i with
  | nil => simp
  | cons x xs ih =>
      match i with
      | 0 => simp at h
      | i + 1 => simpa using ih i (by simpa using h)

/-! ## MusicQueueManager (playback queue)

State of the `MusicQueueManager` class.  `uuidv4()` and `new Date()` are
again explicit arguments.  Indices arriving over the wire are JS numbers,
modelled as `Int` and bounds-checked exactly as in the source. -/

structure MItem where
  id : String
  title : String
  url : String
  thumbnail : Option String
  duration : Option String
  channelTitle : Option String
  addedAt : Int
  isCurrentlyPlaying : Bool
deriving DecidableEq, Repr

structure MQState where
  queue : List MItem
  currentIndex : Int
  isPlaying : Bool
deriving DecidableEq, Repr

def mqInit : MQState := ⟨[], -1, false⟩

/-- The JS `this.queue.findIndex(...)`. -/
def findIdxFrom (p : α → Bool) : List α → Option Nat
  | [] => none
  | x :: xs => if p x then some 0 else (findIdxFrom p xs).map (· + 1)

theorem findIdxFrom_lt_length (p : α → Bool) (l : List α) :
    ∀ i, findIdxFrom p l = some i → i < l.length := by
  induction l with
  | nil => intro i h; simp [findIdxFrom] at h
  | cons x xs ih =>
      intro i h
      by_cases hx : p x = true
      · simp [findIdxFrom, hx] at h
        simp only [List.length_cons]
        omega
      · simp only [findIdxFrom, hx, Bool.false_eq_true, if_false] at h
        rcases hr : findIdxFrom p xs with _ | k
        · rw [hr] at h; simp at h
        · rw [hr] at h
          simp at h
          have hk := ih k hr
          simp only [List.length_cons]
          omega

/-- Write the `isCurrentlyPlaying` flag of the item at `i`
(`this.queue[i].isCurrentlyPlaying = b`); out-of-bounds writes cannot occur
in the reachable states modelled here. -/
def setFlag (q : List MItem) (i : Nat) (b : Bool) : List MItem :=
  match q[i]? with
  | some it => setAt q i { it with isCurrentlyPlaying := b }
  | none => q

theorem length_setFlag (q : List MItem) (i : Nat) (b : Bool) :
    (setFlag q i b).length = q.length := by
  unfold setFlag
  rcases h : q[i]? with _ | it
  · rfl
  · simp [length_setAt]

theorem getElem?_setFlag (q : List MItem) (i : Nat) (b : Bool) (j : Nat) :
    (setFlag q i b)[j]? =
      if j = i then q[i]?.map (fun it => { it with isCurrentlyPlaying := b })
      else q[j]? := by
  rcases h : q[i]? with _ | it
  · have hsf : setFlag q i b = q := by unfold setFlag; rw [h]
    rw [hsf]
    by_cases hj : j = i
    · subst hj
      rw [if_pos rfl, h]
      rfl
    · rw [if_neg hj]
  · have hsf : setFlag q i b = setAt q i { it with isCurrentlyPlaying := b } := by
      unfold setFlag; rw [h]
    rw [hsf]
    by_cases hj : j = i
    · subst hj
      have hi : j < q.length := by
        by_contra hc
        rw [List.getElem?_eq_none (by omega)] at h
        exact Option.noConfusion h
      rw [if_pos rfl]
      exact getElem?_setAt_self q j _ hi
    · rw [if_neg hj, getElem?_setAt_ne q i _ j hj]

/-- Model of `MusicQueueManager.addToQueue`. -/
def mAddToQueue (s : MQState) (id title url : String)
    (thumbnail duration channelTitle : Option String) (now : Int) : MQState :=
  let q := s.queue ++ [⟨id, title, url, thumbnail, duration, channelTitle, now, false⟩]
  if q.length = 1 then ⟨setFlag q 0 true, 0, s.isPlaying⟩
  else ⟨q, s.currentIndex, s.isPlaying⟩

/-- Model of `MusicQueueManager.removeFromQueue`. -/
def mRemoveFromQueue (s : MQState) (itemId : String) : MQState × Bool :=
  match findIdxFrom (fun it => it.id == itemId) s.queue with
  | none => (s, false)
  | some index =>
      if (index : Int) = s.currentIndex then
        if (index : Int) < (s.queue.length : Int) - 1 then
          let q := eraseAt s.queue index
          if q.length > 0 then
            (⟨setFlag q s.currentIndex.toNat true, s.currentIndex, s.isPlaying⟩, true)
          else (⟨q, -1, s.isPlaying⟩, true)
        else
          let q := eraseAt s.queue index
          if q.length = 0 then (⟨q, -1, s.isPlaying⟩, true)
          else
            let ci : Int := max 0 ((index : Int) - 1)
            (⟨setFlag q ci.toNat true, ci, s.isPlaying⟩, true)
      else
        let ci : Int :=
          if (index : Int) < s.currentIndex then s.currentIndex - 1 else s.currentIndex
        (⟨eraseAt s.queue index, ci, s.isPlaying⟩, true)

/-- Model of `MusicQueueManager.reorderQueue`. -/
def mReorderQueue (s : MQState) (fromIndex toIndex : Int) : MQState × Bool :=
  if fromIndex < 0 ∨ fromIndex ≥ (s.queue.length : Int) ∨ toIndex < 0 ∨
      toIndex ≥ (s.queue.length : Int) then
    (s, false)
  else
    match s.queue[fromIndex.toNat]? with
    | none => (s, false)
    | some item =>
        let q := insertAt toIndex.toNat item (eraseAt s.queue fromIndex.toNat)
        let ci :=
          if s.currentIndex = fromIndex then toIndex
          else if fromIndex < s.currentIndex ∧ toIndex ≥ s.currentIndex then s.currentIndex - 1
          else if fromIndex > s.currentIndex ∧ toIndex ≤ s.currentIndex then s.currentIndex + 1
          else s.currentIndex
        (⟨q, ci, s.isPlaying⟩, true)

/-- Clearing the current item's flag (`if (currentIndex >= 0 && < length)`),
shared by `playNext`, `playPrevious` and `playItemAtIndex`. -/
def clearCurrentFlag (s : MQState) : List MItem :=
  if 0 ≤ s.currentIndex ∧ s.currentIndex < (s.queue.length : Int) then
    setFlag s.queue s.currentIndex.toNat false
  else s.queue

/-- Model of `MusicQueueManager.playNext`. -/
def mPlayNext (s : MQState) : Option MItem × MQState :=
  if s.queue.length = 0 then (none, s)
  else
    let q1 := clearCurrentFlag s
    let ci := if s.currentIndex < (s.queue.length : Int) - 1 then s.currentIndex + 1 else 0
    let q2 := setFlag q1 ci.toNat true
    (q2[ci.toNat]?, ⟨q2, ci, s.isPlaying⟩)

/-- Model of `MusicQueueManager.playPrevious`. -/
def mPlayPrevious (s : MQState) : Option MItem × MQState :=
  if s.queue.length = 0 then (none, s)
  else
    let q1 := clearCurrentFlag s
    let ci := if s.currentIndex > 0 then s.currentIndex - 1 else (s.queue.length : Int) - 1
    let q2 := setFlag q1 ci.toNat true
    (q2[ci.toNat]?, ⟨q2, ci, s.isPlaying⟩)

/-- Model of `MusicQueueManager.playItemAtIndex`. -/
def mPlayItemAtIndex (s : MQState) (index : Int) : Option MItem × MQState :=
  if index < 0 ∨ index ≥ (s.queue.length : Int) then (none, s)
  else
    let q1 := clearCurrentFlag s
    let q2 := setFlag q1 index.toNat true
    (q2[index.toNat]?, ⟨q2, index, s.isPlaying⟩)

/-- Model of `MusicQueueManager.playItem`. -/
def mPlayItem (s : MQState) (itemId : String) : Option MItem × MQState :=
  match findIdxFrom (fun it => it.id == itemId) s.queue with
  | none => (none, s)
  | some index => mPlayItemAtIndex s (index : Int)

def mSetPlayingStatus (s : MQState) (playing : Bool) : MQState :=
  { s with isPlaying := playing }

def mClearQueue (_ : MQState) : MQState := ⟨[], -1, false⟩

/-- One externally triggerable playback-queue operation. -/
inductive MOp
  | add (id title url : String) (thumbnail duration channelTitle : Option String) (now : Int)
  | remove (itemId : String)
  | reorder (fromIndex toIndex : Int)
  | next
  | previous
  | playAt (index : Int)
  | play (itemId : String)
  | setPlaying (b : Bool)
  | clear

def mqStep (s : MQState) : MOp → MQState
  | .add id title url thumbnail duration channelTitle now =>
      mAddToQueue s id title url thumbnail duration channelTitle now
  | .remove itemId => (mRemoveFromQueue s itemId).1
  | .reorder fromIndex toIndex => (mReorderQueue s fromIndex toIndex).1
  | .next => (mPlayNext s).2
  | .previous => (mPlayPrevious s).2
  | .playAt index => (mPlayItemAtIndex s index).2
  | .play itemId => (mPlayItem s itemId).2
  | .setPlaying b => mSetPlayingStatus s b
  | .clear => mClearQueue s

def runMQ (ops : List MOp) : MQState := ops.foldl mqStep mqInit

/-- The item flags are exactly "at the cursor". -/
def flagInv (q : List MItem) (cur : Int) : Prop :=
  ∀ (i : Nat) (it : MItem), q[i]? = some it → (it.isCurrentlyPlaying = true ↔ (i : Int) = cur)

/-- The playback-queue invariant of C7. -/
def MQInv (s : MQState) : Prop :=
  -1 ≤ s.currentIndex ∧ s.currentIndex ≤ (s.queue.length : Int) - 1 ∧
    (s.currentIndex = -1 ↔ s.queue.length = 0) ∧ flagInv s.queue s.currentIndex

theorem MQInv_init : MQInv mqInit := by
  refine ⟨by norm_num [mqInit], by simp [mqInit], by simp [mqInit], ?_⟩
  intro i it h
  simp [mqInit] at h

theorem clearCurrentFlag_length (s : MQState) :
    (clearCurrentFlag s).length = s.queue.length := by
  unfold clearCurrentFlag
  split
  · rw [length_setFlag]
  · rfl

theorem getElem?_clearCurrentFlag (s : MQState) (i : Nat) :
    (clearCurrentFlag s)[i]? =
      if 0 ≤ s.currentIndex ∧ s.currentIndex < (s.queue.length : Int) ∧ i = s.currentIndex.toNat
      then s.queue[i]?.map (fun it => { it with isCurrentlyPlaying := false })
      else s.queue[i]? := by
  unfold clearCurrentFlag
  split
  · rename_i hin
    rw [getElem?_setFlag]
    by_cases hi : i = s.currentIndex.toNat
    · rw [if_pos hi, if_pos ⟨hin.1, hin.2, hi⟩, hi]
    · rw [if_neg hi, if_neg (by tauto)]
  · rename_i hout
    rw [if_neg (by tauto)]

/-- After clearing the old current flag and raising the flag at `n`, the
flags point exactly at cursor `ci = n`. -/
theorem flagInv_setFlagTrue (s : MQState) (hinv : MQInv s) (n : Nat) (ci : Int)
    (hci : ci = (n : Int)) (hn : n < s.queue.length) :
    flagInv (setFlag (clearCurrentFlag s) n true) ci := by
  obtain ⟨h1, h2, h3, h4⟩ := hinv
  subst hci
  intro i it hget
  rw [getElem?_setFlag] at hget
  by_cases hi : i = n
  · rw [if_pos hi, getElem?_clearCurrentFlag] at hget
    subst hi
    split at hget
    · rcases hq : s.queue[i]? with _ | y
      · rw [hq] at hget; simp at hget
      · rw [hq] at hget
        simp at hget
        subst hget
        simp
    · rcases hq : s.queue[i]? with _ | y
      · rw [hq] at hget; simp at hget
      · rw [hq] at hget
        simp at hget
        subst hget
        simp
  · rw [if_neg hi, getElem?_clearCurrentFlag] at hget
    split at hget
    · rename_i hcc
      rcases hq : s.queue[i]? with _ | y
      · rw [hq] at hget; simp at hget
      · rw [hq] at hget
        simp at hget
        subst hget
        simp
        omega
    · rename_i hcc
      have hlen : i < s.queue.length := by
        by_contra hc2
        rw [List.getElem?_eq_none (by omega)] at hget
        exact Option.noConfusion hget
      rw [h4 i it hget]
      constructor
      · intro hic
        exact absurd ⟨by omega, by omega, by omega⟩ hcc
      · intro hin2
        exact absurd hin2 (by omega)

theorem MQInv_clear (s : MQState) : MQInv (mClearQueue s) := by
  refine ⟨by norm_num [mClearQueue], by simp [mClearQueue], by simp [mClearQueue], ?_⟩
  intro i it h
  simp [mClearQueue] at h

theorem MQInv_setPlaying (s : MQState) (hinv : MQInv s) (b : Bool) :
    MQInv (mSetPlayingStatus s b) := by
  simpa [MQInv, mSetPlayingStatus, flagInv] using hinv

theorem MQInv_playAt (s : MQState) (hinv : MQInv s) (index : Int) :
    MQInv (mPlayItemAtIndex s index).2 := by
  unfold mPlayItemAtIndex
  split
  · exact hinv
  · rename_i hcond
    push_neg at hcond
    obtain ⟨hge, hlt⟩ := hcond
    have hn : index.toNat < s.queue.length := by omega
    have hL : (setFlag (clearCurrentFlag s) index.toNat true).length = s.queue.length := by
      rw [length_setFlag, clearCurrentFlag_length]
    refine ⟨?_, ?_, ?_, ?_⟩
    · show (-1 : Int) ≤ index
      omega
    · show index ≤ ((setFlag (clearCurrentFlag s) index.toNat true).length : Int) - 1
      rw [hL]; omega
    · show index = -1 ↔ (setFlag (clearCurrentFlag s) index.toNat true).length = 0
      rw [hL]
      constructor
      · intro h; omega
      · intro h; omega
    · exact flagInv_setFlagTrue s hinv index.toNat index (by omega) hn

theorem MQInv_play (s : MQState) (hinv : MQInv s) (itemId : String) :
    MQInv (mPlayItem s itemId).2 := by
  unfold mPlayItem
  rcases h : findIdxFrom (fun it => it.id == itemId) s.queue with _ | index
  · simp only [h]
    exact hinv
  · simp only [h]
    exact MQInv_playAt s hinv index

theorem MQInv_next (s : MQState) (hinv : MQInv s) : MQInv (mPlayNext s).2 := by
  have hinv' := hinv
  obtain ⟨h1, h2, h3, h4⟩ := hinv'
  unfold mPlayNext
  split
  · exact hinv
  · rename_i hne
    simp only
    set ci : Int :=
      if s.currentIndex < (s.queue.length : Int) - 1 then s.currentIndex + 1 else 0 with hci
    have hci0 : 0 ≤ ci ∧ ci < (s.queue.length : Int) := by
      rw [hci]; split <;> constructor <;> omega
    have hn : ci.toNat < s.queue.length := by omega
    have hL : (setFlag (clearCurrentFlag s) ci.toNat true).length = s.queue.length := by
      rw [length_setFlag, clearCurrentFlag_length]
    refine ⟨?_, ?_, ?_, ?_⟩
    · show (-1 : Int) ≤ ci
      omega
    · show ci ≤ ((setFlag (clearCurrentFlag s) ci.toNat true).length : Int) - 1
      rw [hL]; omega
    · show ci = -1 ↔ (setFlag (clearCurrentFlag s) ci.toNat true).length = 0
      rw [hL]
      constructor
      · intro h; omega
      · intro h; omega
    · exact flagInv_setFlagTrue s hinv ci.toNat ci (by omega) hn

theorem MQInv_previous (s : MQState) (hinv : MQInv s) : MQInv (mPlayPrevious s).2 := by
  have hinv' := hinv
  obtain ⟨h1, h2, h3, h4⟩ := hinv'
  unfold mPlayPrevious
  split
  · exact hinv
  · rename_i hne
    simp only
    set ci : Int :=
      if s.currentIndex > 0 then s.currentIndex - 1 else (s.queue.length : Int) - 1 with hci
    have hci0 : 0 ≤ ci ∧ ci < (s.queue.length : Int) := by
      rw [hci]
      have hc0 : 0 ≤ s.currentIndex ∨ s.currentIndex = -1 := by omega
      split <;> constructor <;> omega
    have hn : ci.toNat < s.queue.length := by omega
    have hL : (setFlag (clearCurrentFlag s) ci.toNat true).length = s.queue.length := by
      rw [length_setFlag, clearCurrentFlag_length]
    refine ⟨?_, ?_, ?_, ?_⟩
    · show (-1 : Int) ≤ ci
      omega
    · show ci ≤ ((setFlag (clearCurrentFlag s) ci.toNat true).length : Int) - 1
      rw [hL]; omega
    · show ci = -1 ↔ (setFlag (clearCurrentFlag s) ci.toNat true).length = 0
      rw [hL]
      constructor
      · intro h; omega
      · intro h; omega
    · exact flagInv_setFlagTrue s hinv ci.toNat ci (by omega) hn

theorem MQInv_add (s : MQState) (hinv : MQInv s) (id title url : String)
    (thumbnail duration channelTitle : Option String) (now : Int) :
    MQInv (mAddToQueue s id title url thumbnail duration channelTitle now) := by
  obtain ⟨h1, h2, h3, h4⟩ := hinv
  unfold mAddToQueue
  simp only
  by_cases hlen : (s.queue ++ [(⟨id, title, url, thumbnail, duration, channelTitle, now,
      false⟩ : MItem)]).length = 1
  · rw [if_pos hlen]
    have hq0 : s.queue = [] := by
      have : s.queue.length = 0 := by simpa using hlen
      exact List.length_eq_zero.mp this
    refine ⟨by norm_num, ?_, ?_, ?_⟩
    · rw [hq0]
      simp [setFlag, setAt]
    · rw [hq0]
      simp [setFlag, setAt]
    · intro i it h
      rw [hq0] at h
      match i with
      | 0 =>
          simp [setFlag, setAt] at h
          subst h
          simp
      | i + 1 =>
          simp [setFlag, setAt] at h
  · rw [if_neg hlen]
    have hlen1 : 1 ≤ s.queue.length := by
      have hx : (s.queue ++ [(⟨id, title, url, thumbnail, duration, channelTitle, now,
          false⟩ : MItem)]).length = s.queue.length + 1 := by simp
      omega
    have hc0 : 0 ≤ s.currentIndex := by
      rcases Int.lt_or_le s.currentIndex 0 with hc | hc
      · have hm1 : s.currentIndex = -1 := by omega
        have := h3.mp hm1
        omega
      · exact hc
    refine ⟨h1, ?_, ?_, ?_⟩
    · show s.currentIndex ≤ _ - 1
      rw [List.length_append]
      simp only [List.length_singleton]
      push_cast
      omega
    · show s.currentIndex = -1 ↔ _
      rw [List.length_append]
      simp only [List.length_singleton]
      constructor
      · intro h; omega
      · intro h; omega
    · intro i it h
      by_cases hi : i < s.queue.length
      · rw [getElem?_append_lt _ _ _ hi] at h
        exact h4 i it h
      · rw [getElem?_append_ge _ _ _ (by omega)] at h
        rcases hd : i - s.queue.length with _ | d
        · rw [hd] at h
          simp at h
          subst h
          simp
          omega
        · rw [hd] at h
          simp at h

theorem MQInv_remove (s : MQState) (hinv : MQInv s) (itemId : String) :
    MQInv (mRemoveFromQueue s itemId).1 := by
  obtain ⟨h1, h2, h3, h4⟩ := hinv
  unfold mRemoveFromQueue
  rcases hf : findIdxFrom (fun it => it.id == itemId) s.queue with _ | index
  · simp only [hf]
    exact ⟨h1, h2, h3, h4⟩
  · simp only [hf]
    have hidx : index < s.queue.length := findIdxFrom_lt_length _ _ index hf
    by_cases hcur : (index : Int) = s.currentIndex
    · rw [if_pos hcur]
      by_cases hlast : (index : Int) < (s.queue.length : Int) - 1
      · rw [if_pos hlast]
        have hlenq : (eraseAt s.queue index).length = s.queue.length - 1 :=
          length_eraseAt _ _ hidx
        have hpos : 0 < (eraseAt s.queue index).length := by omega
        rw [if_pos hpos]
        simp only
        refine ⟨?_, ?_, ?_, ?_⟩
        · show (-1 : Int) ≤ s.currentIndex
          omega
        · show s.currentIndex ≤
            ((setFlag (eraseAt s.queue index) s.currentIndex.toNat true).length : Int) - 1
          rw [length_setFlag, hlenq]
          omega
        · show s.currentIndex = -1 ↔
            (setFlag (eraseAt s.queue index) s.currentIndex.toNat true).length = 0
          rw [length_setFlag, hlenq]
          constructor
          · intro h; omega
          · intro h; omega
        · show flagInv (setFlag (eraseAt s.queue index) s.currentIndex.toNat true)
            s.currentIndex
          intro i it hget
          rw [getElem?_setFlag] at hget
          by_cases hi : i = s.currentIndex.toNat
          · rw [if_pos hi] at hget
            rcases hq : (eraseAt s.queue index)[s.currentIndex.toNat]? with _ | y
            · rw [hq] at hget; simp at hget
            · rw [hq] at hget
              simp at hget
              subst hget
              simp
              omega
          · rw [if_neg hi, getElem?_eraseAt] at hget
            split at hget
            · exact h4 i it hget
            · rename_i hge
              rw [h4 (i + 1) it hget]
              constructor
              · intro h; exfalso; omega
              · intro h; exfalso; omega
      · rw [if_neg hlast]
        have hlenq : (eraseAt s.queue index).length = s.queue.length - 1 :=
          length_eraseAt _ _ hidx
        by_cases hzero : (eraseAt s.queue index).length = 0
        · rw [if_pos hzero]
          refine ⟨by norm_num, ?_, ?_, ?_⟩
          · show (-1 : Int) ≤ ((eraseAt s.queue index).length : Int) - 1
            rw [hzero]
            norm_num
          · show (-1 : Int) = -1 ↔ (eraseAt s.queue index).length = 0
            simp [hzero]
          · show flagInv (eraseAt s.queue index) (-1)
            intro i it hget
            have hnone : (eraseAt s.queue index)[i]? = none := by
              rw [List.getElem?_eq_none]
              omega
            rw [hnone] at hget
            exact Option.noConfusion hget
        · rw [if_neg hzero]
          simp only
          have hlen2 : 2 ≤ s.queue.length := by omega
          have hidx1 : 1 ≤ index := by omega
          refine ⟨?_, ?_, ?_, ?_⟩
          · show (-1 : Int) ≤ max 0 ((index : Int) - 1)
            omega
          · show max 0 ((index : Int) - 1) ≤
              ((setFlag (eraseAt s.queue index) (max 0 ((index : Int) - 1)).toNat true).length :
                Int) - 1
            rw [length_setFlag, hlenq]
            omega
          · show max 0 ((index : Int) - 1) = -1 ↔
              (setFlag (eraseAt s.queue index) (max 0 ((index : Int) - 1)).toNat true).length = 0
            rw [length_setFlag, hlenq]
            constructor
            · intro h; omega
            · intro h; omega
          · show flagInv (setFlag (eraseAt s.queue index) (max 0 ((index : Int) - 1)).toNat true)
              (max 0 ((index : Int) - 1))
            intro i it hget
            rw [getElem?_setFlag] at hget
            by_cases hi : i = (max 0 ((index : Int) - 1)).toNat
            · rw [if_pos hi] at hget
              rcases hq : (eraseAt s.queue index)[(max 0 ((index : Int) - 1)).toNat]? with _ | y
              · rw [hq] at hget; simp at hget
              · rw [hq] at hget
                simp at hget
                subst hget
                simp
                omega
            · rw [if_neg hi, getElem?_eraseAt] at hget
              split at hget
              · rename_i hlt2
                rw [h4 i it hget]
                constructor
                · intro h; exfalso; omega
                · intro h; exfalso; omega
              · rename_i hge2
                have hnone : s.queue[i + 1]? = none := by
                  rw [List.getElem?_eq_none]
                  omega
                rw [hnone] at hget
                exact Option.noConfusion hget
    · rw [if_neg hcur]
      simp only
      have hlenq : (eraseAt s.queue index).length = s.queue.length - 1 :=
        length_eraseAt _ _ hidx
      have hcur0 : 0 ≤ s.currentIndex := by
        have hne : s.currentIndex ≠ -1 := fun hc => by
          have := h3.mp hc
          omega
        omega
      have hlen2 : 2 ≤ s.queue.length := by omega
      refine ⟨?_, ?_, ?_, ?_⟩
      · show (-1 : Int) ≤
          (if (index : Int) < s.currentIndex then s.currentIndex - 1 else s.currentIndex)
        split <;> omega
      · show (if (index : Int) < s.currentIndex then s.currentIndex - 1 else s.currentIndex) ≤
          ((eraseAt s.queue index).length : Int) - 1
        rw [hlenq]
        split <;> omega
      · show (if (index : Int) < s.currentIndex then s.currentIndex - 1 else s.currentIndex) =
            -1 ↔ (eraseAt s.queue index).length = 0
        rw [hlenq]
        constructor
        · intro h
          split at h <;> omega
        · intro h
          exfalso
          omega
      · show flagInv (eraseAt s.queue index)
          (if (index : Int) < s.currentIndex then s.currentIndex - 1 else s.currentIndex)
        intro i it hget
        rw [getElem?_eraseAt] at hget
        split at hget
        · rename_i hlt2
          rw [h4 i it hget]
          split <;> (constructor <;> (intro h; omega))
        · rename_i hge2
          rw [h4 (i + 1) it hget]
          split <;> (constructor <;> (intro h; omega))

theorem MQInv_reorder (s : MQState) (hinv : MQInv s) (fromIndex toIndex : Int) :
    MQInv (mReorderQueue s fromIndex toIndex).1 := by
  obtain ⟨h1, h2, h3, h4⟩ := hinv
  unfold mReorderQueue
  split
  · exact ⟨h1, h2, h3, h4⟩
  · rename_i hb
    push_neg at hb
    obtain ⟨hf0, hflen, ht0, htlen⟩ := hb
    rcases hg : s.queue[fromIndex.toNat]? with _ | item
    · simp only [hg]
      exact ⟨h1, h2, h3, h4⟩
    · simp only [hg]
      have hfiI : (fromIndex.toNat : Int) = fromIndex := by omega
      have htiI : (toIndex.toNat : Int) = toIndex := by omega
      have hfiL : fromIndex.toNat < s.queue.length := by omega
      have htiL : toIndex.toNat < s.queue.length := by omega
      have hEL : (eraseAt s.queue fromIndex.toNat).length = s.queue.length - 1 :=
        length_eraseAt _ _ hfiL
      have htile : toIndex.toNat ≤ (eraseAt s.queue fromIndex.toNat).length := by omega
      have hQL :
          (insertAt toIndex.toNat item (eraseAt s.queue fromIndex.toNat)).length =
            s.queue.length := by
        rw [length_insertAt, hEL]
        omega
      have hcur0 : 0 ≤ s.currentIndex := by
        have hne : s.currentIndex ≠ -1 := fun hc => by
          have := h3.mp hc
          omega
        omega
      set ci : Int :=
        if s.currentIndex = fromIndex then toIndex
        else if fromIndex < s.currentIndex ∧ toIndex ≥ s.currentIndex then s.currentIndex - 1
        else if fromIndex > s.currentIndex ∧ toIndex ≤ s.currentIndex then s.currentIndex + 1
        else s.currentIndex with hci
      have hciB : 0 ≤ ci ∧ ci < (s.queue.length : Int) := by
        rw [hci]
        split
        · exact ⟨by omega, by omega⟩
        · split
          · rename_i hc1
            exact ⟨by omega, by omega⟩
          · split
            · rename_i hc1 hc2
              exact ⟨by omega, by omega⟩
            · exact ⟨by omega, by omega⟩
      refine ⟨?_, ?_, ?_, ?_⟩
      · show (-1 : Int) ≤ ci
        omega
      · show ci ≤
          ((insertAt toIndex.toNat item (eraseAt s.queue fromIndex.toNat)).length : Int) - 1
        rw [hQL]
        omega
      · show ci = -1 ↔
          (insertAt toIndex.toNat item (eraseAt s.queue fromIndex.toNat)).length = 0
        rw [hQL]
        constructor
        · intro h; omega
        · intro h; omega
      · show flagInv (insertAt toIndex.toNat item (eraseAt s.queue fromIndex.toNat)) ci
        intro i it hget
        rw [getElem?_insertAt toIndex.toNat item _ htile i] at hget
        split at hget
        · rename_i hlt1
          rw [getElem?_eraseAt] at hget
          split at hget
          · rename_i hlt2
            rw [h4 i it hget, hci]
            split
            · constructor <;> (intro h; omega)
            · split
              · constructor <;> (intro h; omega)
              · split
                · constructor <;> (intro h; omega)
                · constructor <;> (intro h; omega)
          · rename_i hge2
            rw [h4 (i + 1) it hget, hci]
            split
            · constructor <;> (intro h; omega)
            · split
              · constructor <;> (intro h; omega)
              · split
                · constructor <;> (intro h; omega)
                · constructor <;> (intro h; omega)
        · split at hget
          · rename_i hnlt heq
            obtain rfl : item = it := Option.some.inj hget
            rw [h4 fromIndex.toNat item hg, hci]
            split
            · constructor <;> (intro h; omega)
            · split
              · constructor <;> (intro h; omega)
              · split
                · constructor <;> (intro h; omega)
                · constructor <;> (intro h; omega)
          · rename_i hnlt hne
            have hi1 : 1 ≤ i := by omega
            rw [getElem?_eraseAt] at hget
            split at hget
            · rename_i hlt2
              rw [h4 (i - 1) it hget, hci]
              split
              · constructor <;> (intro h; omega)
              · split
                · constructor <;> (intro h; omega)
                · split
                  · constructor <;> (intro h; omega)
                  · constructor <;> (intro h; omega)
            · rename_i hge2
              have heq1 : i - 1 + 1 = i := by omega
              rw [heq1] at hget
              rw [h4 i it hget, hci]
              split
              · constructor <;> (intro h; omega)
              · split
                · constructor <;> (intro h; omega)
                · split
                  · constructor <;> (intro h; omega)
                  · constructor <;> (intro h; omega)

theorem mqStep_inv (s : MQState) (op : MOp) (h : MQInv s) : MQInv (mqStep s op) := by
  cases op with
  | add id title url thumbnail duration channelTitle now =>
      exact MQInv_add s h id title url thumbnail duration channelTitle now
  | remove itemId => exact MQInv_remove s h itemId
  | reorder fromIndex toIndex => exact MQInv_reorder s h fromIndex toIndex
  | next => exact MQInv_next s h
  | previous => exact MQInv_previous s h
  | playAt index => exact MQInv_playAt s h index
  | play itemId => exact MQInv_play s h itemId
  | setPlaying b => exact MQInv_setPlaying s h b
  | clear => exact MQInv_clear s

theorem runMQ_inv (ops : List MOp) : MQInv (runMQ ops) := by
  have hgen : ∀ (ops : List MOp) (s : MQState), MQInv s → MQInv (ops.foldl mqStep s) := by
    intro ops
    induction ops with
    | nil => intro s h; exact h
    | cons op rest ih => intro s h; exact ih _ (mqStep_inv s op h)
  exact hgen ops mqInit MQInv_init

theorem filter_flag_nil (q : List MItem)
    (h : ∀ (i : Nat) (it : MItem), q[i]? = some it → it.isCurrentlyPlaying = false) :
    q.filter (fun it => it.isCurrentlyPlaying) = [] := by
  induction q with
  | nil => rfl
  | cons x xs ih =>
      have hx : x.isCurrentlyPlaying = false := h 0 x (by simp)
      rw [List.filter_cons]
      simp only [hx, Bool.false_eq_true, if_false]
      exact ih (fun i it hit => h (i + 1) it (by simpa using hit))

theorem count_flag_eq_one (q : List MItem) (cur : Int) (hinv : flagInv q cur)
    (h0 : 0 ≤ cur) (hl : cur < (q.length : Int)) :
    (q.filter (fun it => it.isCurrentlyPlaying)).length = 1 := by
  induction q generalizing cur with
  | nil => simp at hl; omega
  | cons x xs ih =>
      have hx := hinv 0 x (by simp)
      by_cases hc : cur = 0
      · have hxf : x.isCurrentlyPlaying = true := hx.mpr (by omega)
        rw [List.filter_cons]
        simp only [hxf, if_true]
        have hrest : xs.filter (fun it => it.isCurrentlyPlaying) = [] := by
          refine filter_flag_nil xs (fun i it hit => ?_)
          have := hinv (i + 1) it (by simpa using hit)
          rcases hb : it.isCurrentlyPlaying with _ | _
          · rfl
          · have := this.mp hb
            omega
        rw [hrest]
        rfl
      · have hxf : x.isCurrentlyPlaying = false := by
          rcases hb : x.isCurrentlyPlaying with _ | _
          · rfl
          · have := hx.mp hb
            omega
        rw [List.filter_cons]
        simp only [hxf, Bool.false_eq_true, if_false]
        refine ih (cur - 1) ?_ (by omega) (by simp at hl ⊢; omega)
        intro i it hit
        have := hinv (i + 1) it (by simpa using hit)
        rw [this]
        constructor
        · intro h; omega
        · intro h; omega

/-- C7: starting from the empty playback queue, after any sequence of
queue operations the cursor stays in `[-1, length - 1]`, is `-1` exactly
when the queue is empty, the item flags hold exactly at the cursor, and a
non-empty queue has exactly one item flagged as currently playing. -/
theorem musicQueue_invariant (ops : List MOp) :
    (-1 ≤ (runMQ ops).currentIndex ∧
        (runMQ ops).currentIndex ≤ ((runMQ ops).queue.length : Int) - 1) ∧
      ((runMQ ops).currentIndex = -1 ↔ (runMQ ops).queue.length = 0) ∧
      (∀ (i : Nat) (it : MItem), (runMQ ops).queue[i]? = some it →
        (it.isCurrentlyPlaying = true ↔ (i : Int) = (runMQ ops).currentIndex)) ∧
      ((runMQ ops).queue.length ≠ 0 →
        ((runMQ ops).queue.filter (fun it => it.isCurrentlyPlaying)).length = 1) := by
  obtain ⟨h1, h2, h3, h4⟩ := runMQ_inv ops
  refine ⟨⟨h1, h2⟩, h3, h4, ?_⟩
  intro hne
  have hc0 : 0 ≤ (runMQ ops).currentIndex := by
    have : (runMQ ops).currentIndex ≠ -1 := fun hc => hne (h3.mp hc)
    omega
  exact count_flag_eq_one _ _ h4 hc0 (by omega)

/-- C7 witness: add two items, remove the first (which was current): the
cursor points at the remaining item, which is the unique flagged one. -/
theorem musicQueue_invariant_witness :
    (-1 ≤ (runMQ [.add "a" "A" "u1" none none none 0, .add "b" "B" "u2" none none none 1,
          .remove "a"]).currentIndex ∧
        (runMQ [.add "a" "A" "u1" none none none 0, .add "b" "B" "u2" none none none 1,
          .remove "a"]).currentIndex ≤
          (((runMQ [.add "a" "A" "u1" none none none 0, .add "b" "B" "u2" none none none 1,
            .remove "a"]).queue.length : Int)) - 1) ∧
      ((⟨"b", "B", "u2", none, none, none, 1, true⟩ : MItem).isCurrentlyPlaying = true ↔
        ((0 : Nat) : Int) = (runMQ [.add "a" "A" "u1" none none none 0,
          .add "b" "B" "u2" none none none 1, .remove "a"]).currentIndex) ∧
      ((runMQ [.add "a" "A" "u1" none none none 0, .add "b" "B" "u2" none none none 1,
          .remove "a"]).queue.filter (fun it => it.isCurrentlyPlaying)).length = 1 := by
  refine ⟨(musicQueue_invariant _).1, ?_, ?_⟩
  · exact (musicQueue_invariant [.add "a" "A" "u1" none none none 0,
      .add "b" "B" "u2" none none none 1, .remove "a"]).2.2.1 0
      ⟨"b", "B", "u2", none, none, none, 1, true⟩ (by decide)
  · exact (musicQueue_invariant [.add "a" "A" "u1" none none none 0,
      .add "b" "B" "u2" none none none 1, .remove "a"]).2.2.2 (by decide)

/-- C9: on an empty playback queue, `playNext`/`playPrevious` return `none`
and leave the state unchanged; on a non-empty queue, `playNext` from the
last index wraps the cursor to 0 and `playPrevious` from index 0 wraps to
the last index, each returning the item at the new cursor. -/
theorem playNext_playPrevious_wraparound :
    (∀ s : MQState, s.queue.length = 0 →
        mPlayNext s = (none, s) ∧ mPlayPrevious s = (none, s)) ∧
      (∀ s : MQState, s.queue.length ≠ 0 →
        s.currentIndex = (s.queue.length : Int) - 1 →
          (mPlayNext s).2.currentIndex = 0 ∧
            (mPlayNext s).1 = (mPlayNext s).2.queue[(0 : Nat)]? ∧
            ((mPlayNext s).1).isSome = true) ∧
      (∀ s : MQState, s.queue.length ≠ 0 → s.currentIndex = 0 →
        (mPlayPrevious s).2.currentIndex = (s.queue.length : Int) - 1 ∧
          (mPlayPrevious s).1 = (mPlayPrevious s).2.queue[s.queue.length - 1]? ∧
          ((mPlayPrevious s).1).isSome = true) := by
  refine ⟨?_, ?_, ?_⟩
  · intro s h
    unfold mPlayNext mPlayPrevious
    rw [if_pos h]
    exact ⟨rfl, by rw [if_pos h]⟩
  · intro s hne hlast
    unfold mPlayNext
    rw [if_neg hne]
    simp only
    rw [if_neg (show ¬(s.currentIndex < (s.queue.length : Int) - 1) by omega)]
    have hL : (setFlag (clearCurrentFlag s) (0 : Int).toNat true).length = s.queue.length := by
      rw [length_setFlag, clearCurrentFlag_length]
    refine ⟨rfl, rfl, ?_⟩
    rcases hq : (setFlag (clearCurrentFlag s) (0 : Int).toNat true)[(0 : Int).toNat]? with _ | y
    · exfalso
      rw [List.getElem?_eq_none_iff] at hq
      rw [hL] at hq
      have : (0 : Int).toNat = 0 := rfl
      omega
    · rfl
  · intro s hne hzero
    unfold mPlayPrevious
    rw [if_neg hne]
    simp only
    rw [if_neg (show ¬(s.currentIndex > 0) by omega)]
    have hL :
        (setFlag (clearCurrentFlag s) ((s.queue.length : Int) - 1).toNat true).length =
          s.queue.length := by
      rw [length_setFlag, clearCurrentFlag_length]
    have htn : ((s.queue.length : Int) - 1).toNat = s.queue.length - 1 := by omega
    refine ⟨rfl, by rw [htn], ?_⟩
    rcases hq : (setFlag (clearCurrentFlag s)
        ((s.queue.length : Int) - 1).toNat true)[((s.queue.length : Int) - 1).toNat]? with _ | y
    · exfalso
      rw [List.getElem?_eq_none_iff] at hq
      rw [hL, htn] at hq
      omega
    · rfl

/-- C9 witness: a three-item queue `[A, B, C]` with the cursor on C wraps to
A under `playNext`; with the cursor on A it wraps to C under `playPrevious`;
the empty queue returns `none` unchanged. -/
theorem playNext_playPrevious_wraparound_witness :
    (mPlayNext mqInit = (none, mqInit) ∧ mPlayPrevious mqInit = (none, mqInit)) ∧
      ((mPlayNext ⟨[⟨"a", "A", "u1", none, none, none, 0, false⟩,
          ⟨"b", "B", "u2", none, none, none, 0, false⟩,
          ⟨"c", "C", "u3", none, none, none, 0, true⟩], 2, true⟩).2.currentIndex = 0 ∧
        (mPlayNext ⟨[⟨"a", "A", "u1", none, none, none, 0, false⟩,
          ⟨"b", "B", "u2", none, none, none, 0, false⟩,
          ⟨"c", "C", "u3", none, none, none, 0, true⟩], 2, true⟩).1 =
          (mPlayNext ⟨[⟨"a", "A", "u1", none, none, none, 0, false⟩,
            ⟨"b", "B", "u2", none, none, none, 0, false⟩,
            ⟨"c", "C", "u3", none, none, none, 0, true⟩], 2, true⟩).2.queue[(0 : Nat)]?) ∧
      (mPlayPrevious ⟨[⟨"a", "A", "u1", none, none, none, 0, true⟩,
          ⟨"b", "B", "u2", none, none, none, 0, false⟩,
          ⟨"c", "C", "u3", none, none, none, 0, false⟩], 0, true⟩).2.currentIndex = 3 - 1 := by
  refine ⟨playNext_playPrevious_wraparound.1 mqInit rfl, ?_, ?_⟩
  · have h := playNext_playPrevious_wraparound.2.1
      ⟨[⟨"a", "A", "u1", none, none, none, 0, false⟩,
        ⟨"b", "B", "u2", none, none, none, 0, false⟩,
        ⟨"c", "C", "u3", none, none, none, 0, true⟩], 2, true⟩ (by decide) (by decide)
    exact ⟨h.1, h.2.1⟩
  · exact (playNext_playPrevious_wraparound.2.2
      ⟨[⟨"a", "A", "u1", none, none, none, 0, true⟩,
        ⟨"b", "B", "u2", none, none, none, 0, false⟩,
        ⟨"c", "C", "u3", none, none, none, 0, false⟩], 0, true⟩ (by decide) (by decide)).1

end MusicDownloader
